import Mathlib

/-!
Verification of the RegiMed rule-matching engine (`src/compare.py` together
with the report construction in `src/app.py`).

Strings are modelled as lists of characters; Python floats are modelled as
rationals, so the similarity ratio `2.0 * matches / length` is embedded as
exact rational arithmetic.  File input to `load_rules` is modelled by an
outcome type distinguishing a successful read of the whole file content, a
missing file (`FileNotFoundError`) and any other I/O failure; exception
propagation is modelled with `Except`.
-/

namespace RegiMed

/-- A Python string, modelled as a list of characters. -/
abbrev Str := List Char

/-- Embedding of Python `str.lower()`: lowercase every character. -/
def pyLower (s : Str) : Str := s.map Char.toLower

/-- Python's notion of whitespace as used by `str.strip()` (ASCII part). -/
def isPySpace (c : Char) : Bool :=
  c = ' ' || c = '\t' || c = '\n' || c = '\r' || c = '\x0b' || c = '\x0c'

/-- Embedding of Python `str.strip()`: remove leading and trailing
whitespace. -/
def pyStrip (s : Str) : Str :=
  ((s.dropWhile isPySpace).reverse.dropWhile isPySpace).reverse

/-- Outcome of trying to open and read the rules file in `load_rules`:
the full file content on success, `FileNotFoundError`, or any other
I/O failure (permissions, corruption, ...) carrying its message. -/
inductive FileOutcome where
  | content (s : Str)
  | notFound
  | ioError (msg : Str)
  deriving DecidableEq

/-- Embedding of `load_rules` (src/compare.py lines 32-38): on a successful
read, split the content into lines, strip each line and keep the non-empty
ones (`[line.strip() for line in f.readlines() if line.strip()]`); on
`FileNotFoundError` return the empty list; any other exception propagates
to the caller, modelled by `Except.error`. -/
def load_rules (o : FileOutcome) : Except Str (List Str) :=
  match o with
  | .content s => .ok (((s.splitOn '\n').map pyStrip).filter (fun l => l ≠ []))
  | .notFound => .ok []
  | .ioError msg => .error msg

/-- Embedding of the matching loop inside `difflib.SequenceMatcher.quick_ratio`:
for each character of `a` in order, one remaining occurrence of it in `b` is
consumed if available, and the match counter is incremented.  The `avail`
bookkeeping of the Python code is modelled by erasing the consumed
occurrence from `b`. -/
def quickMatches : Str → Str → Nat
  | [], _ => 0
  | c :: a, b => if c ∈ b then quickMatches a (b.erase c) + 1 else quickMatches a b

/-- Embedding of `difflib.SequenceMatcher(None, a, b).quick_ratio()`:
`2.0 * matches / (len(a) + len(b))`, and `1.0` when both strings are
empty (difflib's `_calculate_ratio`). -/
def quickRatio (a b : Str) : ℚ :=
  if a.length + b.length = 0 then 1
  else 2 * (quickMatches a b : ℚ) / ((a.length : ℚ) + (b.length : ℚ))

/-- One entry of the result list of `check_rules`: the dict
`{"rule": ..., "found": ..., "similarity": ...}`. -/
structure MatchResult where
  rule : Str
  found : Bool
  similarity : ℚ
  deriving DecidableEq

/-- Embedding of `check_rules` (src/compare.py lines 65-76): lowercase the
text once, then for each rule compute the quick ratio of the lowercased rule
against the lowercased text and report it found when the lowercased rule is
a substring of the lowercased text or the ratio reaches the threshold. -/
def check_rules (text : Str) (rules : List Str) (threshold : ℚ) : List MatchResult :=
  let textLower := pyLower text
  rules.map fun rule =>
    let ruleLower := pyLower rule
    let ratio := quickRatio ruleLower textLower
    { rule := rule
      found := decide (ruleLower <:+: textLower) || decide (threshold ≤ ratio)
      similarity := ratio }

/-- Embedding of `summarize_missing` (src/compare.py lines 79-96): walk the
results in order and collect the rule text of every result whose `found`
flag is false. -/
def summarize_missing : List MatchResult → List Str
  | [] => []
  | r :: rest =>
    if r.found then summarize_missing rest else r.rule :: summarize_missing rest

/-- The JSON report assembled by the `/upload` handler
(src/app.py lines 123-131). -/
structure ComplianceReport where
  filename : Str
  total_rules : Nat
  rules_found : Nat
  rules_missing : Nat
  missing_rules : List Str
  details : List MatchResult
  compliant : Bool
  deriving DecidableEq

/-- Embedding of the report construction in `upload_file`
(src/app.py lines 120-131): run `check_rules` with the default threshold
`0.5`, summarize the missing rules and fill in the report fields. -/
def upload_report (filename text : Str) (rules : List Str) : ComplianceReport :=
  let results := check_rules text rules (1 / 2)
  let missing := summarize_missing results
  { filename := filename
    total_rules := rules.length
    rules_found := rules.length - missing.length
    rules_missing := missing.length
    missing_rules := missing
    details := results
    compliant := missing.length == 0 }

/-- Length of a longest common subsequence of two strings: the largest
number of characters that can be matched between them by an
order-preserving alignment. -/
def lcsLength : Str → Str → Nat
  | [], _ => 0
  | _ :: _, [] => 0
  | a :: as, b :: bs =>
    if a = b then lcsLength as bs + 1
    else max (lcsLength (a :: as) bs) (lcsLength as (b :: bs))
termination_by a b => a.length + b.length

/-- The similarity measure described by the spec's words (§4.2 step 2):
twice the number of matching characters in the longest common matching
alignment, divided by the sum of the two string lengths.  Stated for
comparison with `quickRatio`, the measure the code actually computes. -/
def specAlignmentRatio (a b : Str) : ℚ :=
  if a.length + b.length = 0 then 1
  else 2 * (lcsLength a b : ℚ) / ((a.length : ℚ) + (b.length : ℚ))

/-! ### Helper lemmas -/

theorem quickMatches_eq_card_inter (a b : Str) :
    quickMatches a b = Multiset.card ((a : Multiset Char) ∩ (b : Multiset Char)) := by
  induction a generalizing b with
  | nil => simp [quickMatches]
  | cons c a ih =>
    have hcoe : ((c :: a : List Char) : Multiset Char) = c ::ₘ (a : Multiset Char) := rfl
    by_cases h : c ∈ b
    · rw [quickMatches, if_pos h, ih, hcoe,
        Multiset.cons_inter_of_pos _ (by simpa using h), Multiset.card_cons,
        ← Multiset.coe_erase]
    · rw [quickMatches, if_neg h, ih, hcoe,
        Multiset.cons_inter_of_neg _ (by simpa using h)]

theorem quickMatches_le_left (a b : Str) : quickMatches a b ≤ a.length := by
  rw [quickMatches_eq_card_inter]
  simpa using Multiset.card_le_card (Multiset.inter_le_left (a : Multiset Char) b)

theorem quickMatches_le_right (a b : Str) : quickMatches a b ≤ b.length := by
  rw [quickMatches_eq_card_inter]
  simpa using Multiset.card_le_card (Multiset.inter_le_right (a : Multiset Char) b)

theorem quickMatches_nil_right (a : Str) : quickMatches a [] = 0 :=
  Nat.le_zero.mp (quickMatches_le_right a [])

theorem quickRatio_nonneg (a b : Str) : 0 ≤ quickRatio a b := by
  unfold quickRatio
  split
  · norm_num
  · positivity

theorem quickRatio_le_one (a b : Str) : quickRatio a b ≤ 1 := by
  unfold quickRatio
  split
  · norm_num
  · rename_i h
    rw [div_le_one (by exact_mod_cast Nat.pos_of_ne_zero h)]
    have h1 := quickMatches_le_left a b
    have h2 := quickMatches_le_right a b
    have : (quickMatches a b : ℚ) + (quickMatches a b : ℚ)
        ≤ (a.length : ℚ) + (b.length : ℚ) := by
      exact add_le_add (by exact_mod_cast h1) (by exact_mod_cast h2)
    linarith

theorem quickRatio_nil_left (b : Str) :
    quickRatio [] b = if b = [] then 1 else 0 := by
  unfold quickRatio
  rcases b with _ | ⟨c, b⟩
  · simp
  · simp [quickMatches_eq_card_inter]

/-- Characterization of the entries of `check_rules`: each result records
its rule, the found flag and the quick ratio of the lowercased rule against
the lowercased text. -/
theorem mem_check_rules {text : Str} {rules : List Str} {threshold : ℚ}
    {m : MatchResult} (hm : m ∈ check_rules text rules threshold) :
    m.rule ∈ rules ∧
    m.similarity = quickRatio (pyLower m.rule) (pyLower text) ∧
    m.found = (decide (pyLower m.rule <:+: pyLower text)
      || decide (threshold ≤ quickRatio (pyLower m.rule) (pyLower text))) := by
  unfold check_rules at hm
  obtain ⟨rule, hrule, rfl⟩ := List.mem_map.mp hm
  exact ⟨hrule, rfl, rfl⟩

theorem check_rules_map_rule (text : Str) (rules : List Str) (threshold : ℚ) :
    (check_rules text rules threshold).map MatchResult.rule = rules := by
  unfold check_rules
  rw [List.map_map]
  exact List.map_id'' (fun x => rfl) rules

theorem check_rules_length (text : Str) (rules : List Str) (threshold : ℚ) :
    (check_rules text rules threshold).length = rules.length := by
  unfold check_rules
  exact List.length_map rules _

theorem summarize_missing_eq_filter_map (results : List MatchResult) :
    summarize_missing results
      = (results.filter fun r => !r.found).map MatchResult.rule := by
  induction results with
  | nil => rfl
  | cons r rest ih =>
    by_cases h : r.found = true <;>
      simp [summarize_missing, List.filter_cons, h, ih]

theorem summarize_missing_length_le (results : List MatchResult) :
    (summarize_missing results).length ≤ results.length := by
  rw [summarize_missing_eq_filter_map, List.length_map]
  exact List.length_filter_le _ results

theorem summarize_missing_all_false {results : List MatchResult}
    (h : ∀ m ∈ results, m.found = false) :
    summarize_missing results = results.map MatchResult.rule := by
  rw [summarize_missing_eq_filter_map, List.filter_eq_self.mpr]
  intro m hm
  simp [h m hm]

theorem summarize_missing_eq_nil {results : List MatchResult}
    (h : summarize_missing results = []) : ∀ m ∈ results, m.found = true := by
  intro m hm
  rw [summarize_missing_eq_filter_map] at h
  by_contra hfound
  have : m ∈ results.filter fun r => !r.found :=
    List.mem_filter.mpr ⟨hm, by simpa using hfound⟩
  rw [List.map_eq_nil_iff] at h
  simp [h] at this

theorem dropWhile_eq_self_of_head {p : Char → Bool} {l : Str}
    (h : ∀ w : l ≠ [], p (l.head w) = false) : l.dropWhile p = l := by
  cases l with
  | nil => rfl
  | cons a t =>
    exact List.dropWhile_cons_of_neg (by simpa using h (by simp))

theorem pyStrip_idem (s : Str) : pyStrip (pyStrip s) = pyStrip s := by
  have key : ∀ t : Str,
      (((t.dropWhile isPySpace).reverse.dropWhile isPySpace).reverse).dropWhile isPySpace
        = ((t.dropWhile isPySpace).reverse.dropWhile isPySpace).reverse := by
    intro t
    apply dropWhile_eq_self_of_head
    intro w
    have hpre : ((t.dropWhile isPySpace).reverse.dropWhile isPySpace).reverse
        <+: t.dropWhile isPySpace := by
      have hsuf : (t.dropWhile isPySpace).reverse.dropWhile isPySpace
          <:+ (t.dropWhile isPySpace).reverse := List.dropWhile_suffix _
      simpa using hsuf.reverse
    rw [List.IsPrefix.head hpre w]
    exact List.head_dropWhile_not isPySpace t _
  unfold pyStrip
  rw [key s]
  congr 1
  rw [List.reverse_reverse]
  apply dropWhile_eq_self_of_head
  intro w
  exact List.head_dropWhile_not isPySpace (s.dropWhile isPySpace).reverse w

theorem load_rules_content_mem {s : Str} {rules : List Str}
    (h : load_rules (.content s) = .ok rules) :
    ∀ r ∈ rules, r ≠ [] ∧ pyStrip r = r := by
  have hrules : rules = ((s.splitOn '\n').map pyStrip).filter (fun l => l ≠ []) := by
    simpa [load_rules] using h.symm
  intro r hr
  rw [hrules] at hr
  have hmem := List.mem_filter.mp hr
  refine ⟨by simpa using hmem.2, ?_⟩
  obtain ⟨line, _, rfl⟩ := List.mem_map.mp hmem.1
  exact pyStrip_idem line

theorem upload_report_missing (filename text : Str) (rules : List Str) :
    (upload_report filename text rules).missing_rules
      = summarize_missing (check_rules text rules (1 / 2)) := rfl

theorem upload_report_compliant_iff (filename text : Str) (rules : List Str) :
    (upload_report filename text rules).compliant = true
      ↔ (upload_report filename text rules).missing_rules = [] := by
  unfold upload_report
  simp [List.length_eq_zero]

/-! ### Claim theorems -/

/-- Claim C1: every `MatchResult` emitted by `check_rules` has
`found = true` exactly when the lowercased rule is a literal substring of
the lowercased document text or the similarity ratio reaches the threshold;
in particular a substring match forces `found = true` regardless of the
similarity value and the threshold value. -/
theorem found_iff_substring_or_threshold (text : Str) (rules : List Str)
    (threshold : ℚ) (m : MatchResult) (hm : m ∈ check_rules text rules threshold) :
    (m.found = true ↔ (pyLower m.rule <:+: pyLower text ∨ threshold ≤ m.similarity)) ∧
    (pyLower m.rule <:+: pyLower text → m.found = true) := by
  obtain ⟨-, hsim, hfound⟩ := mem_check_rules hm
  rw [hsim, hfound]
  constructor
  · simp
  · intro h
    simp [h]

/-- Concrete instance of `found_iff_substring_or_threshold` at
`text = "a"`, `rules = ["a"]`, `threshold = 1/2`. -/
theorem found_iff_substring_or_threshold_witness :
    ((⟨['a'], true, 1⟩ : MatchResult).found = true ↔
      (pyLower (⟨['a'], true, 1⟩ : MatchResult).rule <:+: pyLower ['a'] ∨
        (1 : ℚ) / 2 ≤ (⟨['a'], true, 1⟩ : MatchResult).similarity)) ∧
    (pyLower (⟨['a'], true, 1⟩ : MatchResult).rule <:+: pyLower ['a'] →
      (⟨['a'], true, 1⟩ : MatchResult).found = true) := by
  have hlist : check_rules ['a'] [['a']] (1 / 2) = [⟨['a'], true, 1⟩] := by
    simp +decide [check_rules, pyLower, quickRatio, quickMatches]
    norm_num
  have hmem : (⟨['a'], true, 1⟩ : MatchResult) ∈ check_rules ['a'] [['a']] (1 / 2) := by
    rw [hlist]
    exact List.mem_singleton.mpr rfl
  exact found_iff_substring_or_threshold ['a'] [['a']] (1 / 2) _ hmem

/-- Claim C3: `check_rules` returns one result per rule, in the order of
the rule list, each carrying the rule text with its original casing. -/
theorem check_rules_one_result_per_rule (text : Str) (rules : List Str)
    (threshold : ℚ) :
    (check_rules text rules threshold).length = rules.length ∧
    (check_rules text rules threshold).map MatchResult.rule = rules :=
  ⟨check_rules_length text rules threshold, check_rules_map_rule text rules threshold⟩

/-- Claim C5: the similarity score of every emitted `MatchResult` lies in
the closed interval `[0, 1]`. -/
theorem similarity_in_unit_interval (text : Str) (rules : List Str)
    (threshold : ℚ) (m : MatchResult) (hm : m ∈ check_rules text rules threshold) :
    0 ≤ m.similarity ∧ m.similarity ≤ 1 := by
  obtain ⟨-, hsim, -⟩ := mem_check_rules hm
  rw [hsim]
  exact ⟨quickRatio_nonneg _ _, quickRatio_le_one _ _⟩

/-- Concrete instance of `similarity_in_unit_interval` at `text = "b"`,
`rules = ["c"]`, `threshold = 1/2`. -/
theorem similarity_in_unit_interval_witness :
    0 ≤ (⟨['c'], false, 0⟩ : MatchResult).similarity ∧
    (⟨['c'], false, 0⟩ : MatchResult).similarity ≤ 1 := by
  have hlist : check_rules ['b'] [['c']] (1 / 2) = [⟨['c'], false, 0⟩] := by
    simp +decide [check_rules, pyLower, quickRatio, quickMatches]
  have hmem : (⟨['c'], false, 0⟩ : MatchResult) ∈ check_rules ['b'] [['c']] (1 / 2) := by
    rw [hlist]
    exact List.mem_singleton.mpr rfl
  exact similarity_in_unit_interval ['b'] [['c']] (1 / 2) _ hmem

/-- Claim C9: `load_rules` recovers only the missing-source case; any other
I/O failure propagates to the caller as an error and does not return a
value. -/
theorem load_rules_error_surfaces :
    (∀ msg : Str, load_rules (.ioError msg) = .error msg) ∧
    (∀ o : FileOutcome, (∃ msg, load_rules o = .error msg) ↔ ∃ msg, o = .ioError msg) := by
  constructor
  · intro msg
    rfl
  · intro o
    cases o with
    | content s => simp [load_rules]
    | notFound => simp [load_rules]
    | ioError msg => simp [load_rules]

/-- Claim C10: an empty rule is always reported found (the empty string is
a substring of every string); its similarity is `0` against a non-empty
text and `1` when the text is empty as well. -/
theorem empty_rule_found (text : Str) (rules : List Str) (threshold : ℚ)
    (m : MatchResult) (hm : m ∈ check_rules text rules threshold)
    (hr : m.rule = []) :
    m.found = true ∧ (text ≠ [] → m.similarity = 0) ∧
    (text = [] → m.similarity = 1) := by
  obtain ⟨-, hsim, hfound⟩ := mem_check_rules hm
  rw [hr] at hsim hfound
  have hnil : pyLower ([] : Str) = [] := rfl
  rw [hnil] at hsim hfound
  refine ⟨?_, ?_, ?_⟩
  · rw [hfound]
    simp
  · intro ht
    rw [hsim, quickRatio_nil_left, if_neg]
    simpa [pyLower, List.map_eq_nil_iff] using ht
  · intro ht
    subst ht
    rw [hsim]
    rfl

/-- Concrete instance of `empty_rule_found` at `text = "a"`,
`rules = [""]`, `threshold = 0`. -/
theorem empty_rule_found_witness :
    (⟨[], true, 0⟩ : MatchResult).found = true ∧
    ((['a'] : Str) ≠ [] → (⟨[], true, 0⟩ : MatchResult).similarity = 0) ∧
    ((['a'] : Str) = [] → (⟨[], true, 0⟩ : MatchResult).similarity = 1) := by
  have hlist : check_rules ['a'] [[]] 0 = [⟨[], true, 0⟩] := by
    simp +decide [check_rules, pyLower, quickRatio, quickMatches]
  have hmem : (⟨[], true, 0⟩ : MatchResult) ∈ check_rules ['a'] [[]] 0 := by
    rw [hlist]
    exact List.mem_singleton.mpr rfl
  exact empty_rule_found ['a'] [[]] 0 _ hmem rfl

/-- Claim C2 counterexample: for the rule `"ab"` against the document text
`"ba"` the code reports similarity `1` (difflib's quick ratio ignores
character order), while the spec's alignment measure on the same lowercased
strings is `1/2`. -/
theorem similarity_ne_alignment_ratio :
    (check_rules ['b', 'a'] [['a', 'b']] (1 / 2)).map MatchResult.similarity = [1] ∧
    specAlignmentRatio (pyLower ['a', 'b']) (pyLower ['b', 'a']) = 1 / 2 ∧
    (1 : ℚ) ≠ 1 / 2 := by
  refine ⟨?_, ?_, by norm_num⟩
  · simp +decide [check_rules, pyLower, quickRatio, quickMatches, List.erase]
    norm_num
  · simp +decide [specAlignmentRatio, pyLower, lcsLength]
    norm_num

/-- Claim C2 (amended): the similarity score of every emitted `MatchResult`
equals twice the number of common characters of the lowercased rule and
the lowercased document text, counted with multiplicity but without regard
to order or position (the cardinality of the character multiset
intersection), divided by the sum of the two string lengths, and equals
`1` when both strings are empty. -/
theorem similarity_eq_multiset_ratio (text : Str) (rules : List Str)
    (threshold : ℚ) (m : MatchResult) (hm : m ∈ check_rules text rules threshold) :
    m.similarity =
      if (pyLower m.rule).length + (pyLower text).length = 0 then 1
      else 2 * (Multiset.card
          ((pyLower m.rule : Multiset Char) ∩ (pyLower text : Multiset Char)) : ℚ)
        / (((pyLower m.rule).length : ℚ) + ((pyLower text).length : ℚ)) := by
  obtain ⟨-, hsim, -⟩ := mem_check_rules hm
  rw [hsim]
  unfold quickRatio
  rw [quickMatches_eq_card_inter]

/-- Concrete instance of `similarity_eq_multiset_ratio` at `text = "b"`,
`rules = ["bc"]`, `threshold = 1/2`. -/
theorem similarity_eq_multiset_ratio_witness :
    (⟨['b', 'c'], true, 2 / 3⟩ : MatchResult).similarity =
      if (pyLower (⟨['b', 'c'], true, 2 / 3⟩ : MatchResult).rule).length
          + (pyLower ['b']).length = 0 then 1
      else 2 * (Multiset.card
          ((pyLower (⟨['b', 'c'], true, 2 / 3⟩ : MatchResult).rule : Multiset Char)
            ∩ (pyLower ['b'] : Multiset Char)) : ℚ)
        / (((pyLower (⟨['b', 'c'], true, 2 / 3⟩ : MatchResult).rule).length : ℚ)
            + ((pyLower ['b']).length : ℚ)) := by
  have hlist : check_rules ['b'] [['b', 'c']] (1 / 2) = [⟨['b', 'c'], true, 2 / 3⟩] := by
    simp +decide [check_rules, pyLower, quickRatio, quickMatches, List.erase]
    norm_num
  have hmem : (⟨['b', 'c'], true, 2 / 3⟩ : MatchResult)
      ∈ check_rules ['b'] [['b', 'c']] (1 / 2) := by
    rw [hlist]
    exact List.mem_singleton.mpr rfl
  exact similarity_eq_multiset_ratio ['b'] [['b', 'c']] (1 / 2) _ hmem

/-- Claim C4: against the empty document text, with any threshold at least
`1/2`, every non-empty rule is reported not found with similarity `0`;
hence all rules appear in the missing list and a report over a non-empty
rule set is not compliant. -/
theorem empty_text_all_missing (rules : List Str) (threshold : ℚ)
    (filename : Str) (hth : 1 / 2 ≤ threshold) (hne : ∀ r ∈ rules, r ≠ []) :
    (∀ m ∈ check_rules [] rules threshold, m.found = false ∧ m.similarity = 0) ∧
    summarize_missing (check_rules [] rules threshold) = rules ∧
    (upload_report filename [] rules).missing_rules = rules ∧
    (rules ≠ [] → (upload_report filename [] rules).compliant = false) := by
  have hmain : ∀ th : ℚ, 1 / 2 ≤ th →
      ∀ m ∈ check_rules [] rules th, m.found = false ∧ m.similarity = 0 := by
    intro th hth' m hm
    obtain ⟨hrule, hsim, hfound⟩ := mem_check_rules hm
    have hlow : pyLower m.rule ≠ [] := by
      simpa [pyLower, List.map_eq_nil_iff] using hne m.rule hrule
    have htext : pyLower ([] : Str) = [] := rfl
    rw [htext] at hsim hfound
    have hratio : quickRatio (pyLower m.rule) [] = 0 := by
      unfold quickRatio
      rw [if_neg (by simpa using hlow), quickMatches_nil_right]
      norm_num
    rw [hratio] at hsim hfound
    refine ⟨?_, hsim⟩
    rw [hfound]
    simp only [Bool.or_eq_false_iff, decide_eq_false_iff_not]
    exact ⟨fun hinf => hlow (List.eq_nil_of_infix_nil hinf), by linarith⟩
  have hsum : ∀ th : ℚ, 1 / 2 ≤ th →
      summarize_missing (check_rules [] rules th) = rules := by
    intro th hth'
    rw [summarize_missing_all_false (fun m hm => (hmain th hth' m hm).1)]
    exact check_rules_map_rule [] rules th
  have hmiss : (upload_report filename [] rules).missing_rules = rules := by
    rw [upload_report_missing]
    exact hsum (1 / 2) le_rfl
  refine ⟨hmain threshold hth, hsum threshold hth, hmiss, ?_⟩
  intro hrne
  by_contra hcomp
  have := (upload_report_compliant_iff filename [] rules).mp
    (by simpa using hcomp)
  rw [hmiss] at this
  exact hrne this

/-- Concrete instance of `empty_text_all_missing` at `rules = ["a"]`,
`threshold = 1/2`, empty filename. -/
theorem empty_text_all_missing_witness :
    summarize_missing (check_rules [] [['a']] (1 / 2)) = [['a']] ∧
    (upload_report [] [] [['a']]).compliant = false := by
  have h := empty_text_all_missing [['a']] (1 / 2) [] le_rfl (by simp)
  exact ⟨h.2.1, h.2.2.2 (by simp)⟩

/-- Claim C6: the report's missing list consists exactly of the rule texts
of the detail entries whose found flag is false, in their original order,
and its length is `total_rules - rules_found`. -/
theorem missing_rules_spec (filename text : Str) (rules : List Str) :
    (upload_report filename text rules).missing_rules
      = ((upload_report filename text rules).details.filter
          (fun r => !r.found)).map MatchResult.rule ∧
    (upload_report filename text rules).missing_rules.length
      = (upload_report filename text rules).total_rules
        - (upload_report filename text rules).rules_found := by
  constructor
  · exact summarize_missing_eq_filter_map _
  · show (summarize_missing (check_rules text rules (1 / 2))).length
      = rules.length
        - (rules.length - (summarize_missing (check_rules text rules (1 / 2))).length)
    have hle : (summarize_missing (check_rules text rules (1 / 2))).length
        ≤ rules.length := by
      calc (summarize_missing (check_rules text rules (1 / 2))).length
          ≤ (check_rules text rules (1 / 2)).length := summarize_missing_length_le _
        _ = rules.length := check_rules_length _ _ _
    omega

/-- Claim C7: a report is compliant exactly when its missing list is empty,
which holds exactly when `rules_missing` is zero; the empty rule set gives
a compliant report with zero total rules. -/
theorem compliant_iff_no_missing (filename text : Str) (rules : List Str) :
    ((upload_report filename text rules).compliant = true
      ↔ (upload_report filename text rules).missing_rules = []) ∧
    ((upload_report filename text rules).missing_rules = []
      ↔ (upload_report filename text rules).rules_missing = 0) ∧
    (rules = [] → (upload_report filename text rules).compliant = true
      ∧ (upload_report filename text rules).total_rules = 0) := by
  refine ⟨upload_report_compliant_iff filename text rules, ?_, ?_⟩
  · show summarize_missing (check_rules text rules (1 / 2)) = []
      ↔ (summarize_missing (check_rules text rules (1 / 2))).length = 0
    exact List.length_eq_zero.symm
  · intro h
    subst h
    refine ⟨?_, rfl⟩
    rw [upload_report_compliant_iff]
    rfl

/-- Concrete instance of `compliant_iff_no_missing` with the empty rule
set. -/
theorem compliant_iff_no_missing_witness :
    (upload_report [] ['x'] []).compliant = true
      ∧ (upload_report [] ['x'] []).total_rules = 0 :=
  (compliant_iff_no_missing [] ['x'] []).2.2 rfl

/-- Claim C8: whenever `load_rules` returns a rule set, every rule in it is
non-empty and already whitespace-trimmed; a missing source yields the empty
rule set; and a successful read yields exactly the stripped lines that
remain non-empty, in file order (a sublist of the stripped lines). -/
theorem load_rules_spec (o : FileOutcome) (rules : List Str)
    (h : load_rules o = .ok rules) :
    (∀ r ∈ rules, r ≠ [] ∧ pyStrip r = r) ∧
    (o = .notFound → rules = []) ∧
    (∀ s, o = .content s →
      rules = ((s.splitOn '\n').map pyStrip).filter (fun l => l ≠ []) ∧
      List.Sublist rules ((s.splitOn '\n').map pyStrip)) := by
  refine ⟨?_, ?_, ?_⟩
  · cases o with
    | content s => exact load_rules_content_mem h
    | notFound =>
      have hr : rules = [] := by simpa [load_rules] using h.symm
      subst hr
      simp
    | ioError msg => simp [load_rules] at h
  · intro ho
    subst ho
    simpa [load_rules] using h.symm
  · intro s hs
    subst hs
    have hr : rules = ((s.splitOn '\n').map pyStrip).filter (fun l => l ≠ []) := by
      simpa [load_rules] using h.symm
    rw [hr]
    exact ⟨rfl, List.filter_sublist _⟩

/-- Concrete instance of `load_rules_spec` on the file content
`"a\nb "`. -/
theorem load_rules_spec_witness :
    (∀ r ∈ [(['a'] : Str), ['b']], r ≠ [] ∧ pyStrip r = r) ∧
    (FileOutcome.content ['a', '\n', 'b', ' '] = FileOutcome.notFound
      → [(['a'] : Str), ['b']] = []) ∧
    (∀ s, FileOutcome.content ['a', '\n', 'b', ' '] = FileOutcome.content s →
      [(['a'] : Str), ['b']]
        = ((s.splitOn '\n').map pyStrip).filter (fun l => l ≠ []) ∧
      List.Sublist [(['a'] : Str), ['b']] ((s.splitOn '\n').map pyStrip)) :=
  load_rules_spec (.content ['a', '\n', 'b', ' ']) [['a'], ['b']] (by rfl)

end RegiMed
